import Mathlib

set_option maxHeartbeats 1000000
set_option linter.unusedVariables false
set_option linter.unnecessarySeqFocus false
set_option linter.unreachableTactic false
set_option linter.unusedTactic false

/-!
Verification of the value/position mapping engine of
`crates/egui/src/widgets/slider.rs`.

Doubles are modelled by the type `F`: a finite double is idealised as a real
number, and the special values (the two infinities and a single NaN) are
explicit constructors.  Comparisons and arithmetic follow IEEE-754 semantics
(NaN is incomparable and propagates; signed zero is not distinguished).
The value pipeline (`Slider::set_value`) only performs exact field arithmetic
on its inputs, so it is embedded over `ℚ`, which keeps it executable.
-/

/-- An f64-like value: a finite real, one of the two infinities, or NaN. -/
inductive F where
  | fin (x : ℝ)
  | pinf
  | ninf
  | nan

/-- IEEE `is_nan`. -/
def F.IsNan : F → Prop
  | .nan => True
  | _ => False

/-- IEEE `is_finite`. -/
def F.IsFinite : F → Prop
  | .fin _ => True
  | _ => False

/-- IEEE strict `<`: false whenever an operand is NaN. -/
def F.Lt : F → F → Prop
  | .fin x, .fin y => x < y
  | .fin _, .pinf => True
  | .ninf, .fin _ => True
  | .ninf, .pinf => True
  | _, _ => False

/-- IEEE `<=`: false whenever an operand is NaN. -/
def F.Le : F → F → Prop
  | .fin x, .fin y => x ≤ y
  | .fin _, .pinf => True
  | .ninf, .fin _ => True
  | .ninf, .pinf => True
  | .ninf, .ninf => True
  | .pinf, .pinf => True
  | _, _ => False

/-- IEEE `==`: equality of non-NaN values (our model has a unique NaN). -/
def F.Beq (a b : F) : Prop := a = b ∧ a ≠ F.nan

noncomputable instance (a b : F) : Decidable (F.Lt a b) := Classical.propDecidable _

noncomputable instance (a b : F) : Decidable (F.Le a b) := Classical.propDecidable _

noncomputable instance (a b : F) : Decidable (F.Beq a b) := Classical.propDecidable _

noncomputable instance (a : F) : Decidable (F.IsNan a) := Classical.propDecidable _

noncomputable instance : DecidableEq F := fun _ _ => Classical.propDecidable _

/-- IEEE negation. -/
def F.neg : F → F
  | .fin x => .fin (-x)
  | .pinf => .ninf
  | .ninf => .pinf
  | .nan => .nan

/-- IEEE `abs`. -/
def F.abs : F → F
  | .fin x => .fin |x|
  | .nan => .nan
  | _ => .pinf

/-- The real number held by a finite value (junk on the special values). -/
def F.toReal : F → ℝ
  | .fin x => x
  | _ => 0

/-- IEEE addition (without signed zero). -/
def F.add : F → F → F
  | .fin x, .fin y => .fin (x + y)
  | .fin _, .pinf => .pinf
  | .pinf, .fin _ => .pinf
  | .fin _, .ninf => .ninf
  | .ninf, .fin _ => .ninf
  | .pinf, .pinf => .pinf
  | .ninf, .ninf => .ninf
  | _, _ => .nan

/-- IEEE subtraction. -/
def F.sub (a b : F) : F := a.add b.neg

/-- IEEE multiplication. -/
noncomputable def F.mul : F → F → F
  | .fin x, .fin y => .fin (x * y)
  | .fin x, .pinf => if 0 < x then .pinf else if x < 0 then .ninf else .nan
  | .pinf, .fin y => if 0 < y then .pinf else if y < 0 then .ninf else .nan
  | .fin x, .ninf => if 0 < x then .ninf else if x < 0 then .pinf else .nan
  | .ninf, .fin y => if 0 < y then .ninf else if y < 0 then .pinf else .nan
  | .pinf, .pinf => .pinf
  | .pinf, .ninf => .ninf
  | .ninf, .pinf => .ninf
  | .ninf, .ninf => .pinf
  | _, _ => .nan

/-- IEEE division of two finite doubles (a zero divisor keeps the sign of the
dividend; `0/0` is NaN). -/
noncomputable def F.divR (a b : ℝ) : F :=
  if b = 0 then (if a = 0 then F.nan else if 0 < a then F.pinf else F.ninf)
  else F.fin (a / b)

/-- IEEE division. -/
noncomputable def F.div : F → F → F
  | .fin x, .fin y => F.divR x y
  | .fin _, .pinf => .fin 0
  | .fin _, .ninf => .fin 0
  | .pinf, .fin y => if 0 ≤ y then .pinf else .ninf
  | .ninf, .fin y => if 0 ≤ y then .ninf else .pinf
  | _, _ => .nan

/-- `f64::log10`: NaN on negative input, `-∞` at zero. -/
noncomputable def F.log10 : F → F
  | .fin x => if 0 < x then .fin (Real.logb 10 x) else if x = 0 then .ninf else .nan
  | .pinf => .pinf
  | _ => .nan

/-- `10.0_f64.powf`: the real power `10 ^ x` on finite input (overflow to
infinity is not modelled), `+∞` at `+∞`, `0` at `-∞`. -/
noncomputable def F.pow10 : F → F
  | .fin x => .fin ((10 : ℝ) ^ x)
  | .pinf => .pinf
  | .ninf => .fin 0
  | .nan => .nan

/-- `f64::clamp(0.0, 1.0)`. -/
noncomputable def F.clamp01 : F → F
  | .fin x => .fin (max 0 (min 1 x))
  | .pinf => .fin 1
  | .ninf => .fin 0
  | .nan => .nan

/-- The smaller of two non-NaN values. -/
noncomputable def F.fmin (a b : F) : F := if F.Lt b a then b else a

/-- The larger of two non-NaN values. -/
noncomputable def F.fmax (a b : F) : F := if F.Lt b a then a else b

/-- `INF_RANGE_MAGNITUDE` from slider.rs: the finite stand-in, in orders of
magnitude, for an infinite logarithmic range. -/
def INF_RANGE_MAGNITUDE : ℝ := 10

/-- `SliderSpec` from slider.rs. -/
structure SliderSpec where
  logarithmic : Bool
  smallest_positive : F
  largest_finite : F

/-- Modelled from the spec: `emath::lerp` (crate `emath`, not excerpted) is the
plain affine interpolation between the ends of a range: `(1 - t) * lo + t * hi`. -/
noncomputable def lerpF (lo hi t : F) : F :=
  F.add (F.mul (F.sub (F.fin 1) t) lo) (F.mul t hi)

/-- Modelled from the spec: `emath::remap` (crate `emath`, not excerpted) maps
`x` affinely from the range `a..=b` onto `c..=d`, interpolating or
extrapolating without clamping. -/
noncomputable def remapF (x a b c d : F) : F :=
  lerpF c d (F.div (F.sub x a) (F.sub b a))

/-- Modelled from the spec: `emath::remap_clamp` (crate `emath`, not excerpted)
is `remapF` with the result clamped at the ends of the target range. -/
noncomputable def remap_clampF (x a b c d : F) : F :=
  if F.Le x a then c
  else if F.Le b x then d
  else lerpF c d (F.div (F.sub x a) (F.sub b a))

/-- `range_log10` from slider.rs: the log10 interval substituted for a
non-negative logarithmic range, with finite stand-ins for zero and infinity. -/
noncomputable def range_log10 (min max : F) (spec : SliderSpec) : F × F :=
  if min = F.fin 0 ∧ max = F.pinf then
    (spec.smallest_positive.log10, F.fin INF_RANGE_MAGNITUDE)
  else if min = F.fin 0 then
    if F.Lt spec.smallest_positive max then (spec.smallest_positive.log10, max.log10)
    else (F.sub max.log10 (F.fin INF_RANGE_MAGNITUDE), max.log10)
  else if max = F.pinf then
    if F.Lt min spec.largest_finite then (min.log10, spec.largest_finite.log10)
    else (min.log10, F.add min.log10 (F.fin INF_RANGE_MAGNITUDE))
  else (min.log10, max.log10)

/-- `logarithmic_zero_cutoff` from slider.rs: where to put the zero cutoff for
logarithmic sliders that cross zero. -/
noncomputable def logarithmic_zero_cutoff (min max : F) : F :=
  let min_magnitude : ℝ :=
    if min = F.ninf then INF_RANGE_MAGNITUDE else |Real.logb 10 min.abs.toReal|
  let max_magnitude : ℝ :=
    if max = F.pinf then INF_RANGE_MAGNITUDE else |Real.logb 10 max.toReal|
  F.divR min_magnitude (min_magnitude + max_magnitude)

/-- Termination measure for the mapper recursion: how a range can still be
rewritten (inverted ranges unfold to ascending ones, zero-straddling ranges to
sign-definite ones, non-positive ranges to inverted non-negative ones). -/
noncomputable def rankBase (lo hi : F) : ℕ :=
  if F.Lt lo (F.fin 0) ∧ F.Lt (F.fin 0) hi then 3
  else if F.Le hi (F.fin 0) then 2
  else 0

/-- Termination measure on a (possibly inverted) range. -/
noncomputable def rank (a b : F) : ℕ :=
  if F.Lt b a then rankBase b a + 1 else rankBase a b

/-- `value_from_normalized` from slider.rs. -/
noncomputable def value_from_normalized (normalized min max : F) (spec : SliderSpec) : F :=
  if h1 : min.IsNan ∨ max.IsNan then F.nan
  else if h2 : F.Beq min max then min
  else if h3 : F.Lt max min then
    value_from_normalized (F.sub (F.fin 1) normalized) max min spec
  else if h4 : F.Le normalized (F.fin 0) then min
  else if h5 : F.Le (F.fin 1) normalized then max
  else if h6 : spec.logarithmic then
    if h7 : F.Le max (F.fin 0) then
      F.neg (value_from_normalized normalized min.neg max.neg spec)
    else if h8 : F.Le (F.fin 0) min then
      F.pow10 (lerpF (range_log10 min max spec).1 (range_log10 min max spec).2 normalized)
    else
      if h9 : F.Lt normalized (logarithmic_zero_cutoff min max) then
        value_from_normalized
          (remapF normalized (F.fin 0) (logarithmic_zero_cutoff min max) (F.fin 0) (F.fin 1))
          min (F.fin 0) spec
      else
        value_from_normalized
          (remapF normalized (logarithmic_zero_cutoff min max) (F.fin 1) (F.fin 0) (F.fin 1))
          (F.fin 0) max spec
  else
    lerpF min max normalized.clamp01
termination_by rank min max
decreasing_by
  all_goals
    cases min <;> cases max <;>
      simp_all [rank, rankBase, F.Lt, F.Le, F.Beq, F.IsNan, F.neg] <;>
      split_ifs <;>
      first
        | omega
        | linarith
        | (rcases lt_or_gt_of_ne h2 with hq | hq <;> linarith)

/-- `normalized_from_value` from slider.rs. -/
noncomputable def normalized_from_value (value min max : F) (spec : SliderSpec) : F :=
  if h1 : min.IsNan ∨ max.IsNan then F.nan
  else if h2 : F.Beq min max then F.fin (1 / 2)
  else if h3 : F.Lt max min then
    F.sub (F.fin 1) (normalized_from_value value max min spec)
  else if h4 : F.Le value min then F.fin 0
  else if h5 : F.Le max value then F.fin 1
  else if h6 : spec.logarithmic then
    if h7 : F.Le max (F.fin 0) then
      normalized_from_value value.neg min.neg max.neg spec
    else if h8 : F.Le (F.fin 0) min then
      remap_clampF value.log10 (range_log10 min max spec).1 (range_log10 min max spec).2
        (F.fin 0) (F.fin 1)
    else
      if h9 : F.Lt value (F.fin 0) then
        remapF (normalized_from_value value min (F.fin 0) spec) (F.fin 0) (F.fin 1)
          (F.fin 0) (logarithmic_zero_cutoff min max)
      else
        remapF (normalized_from_value value (F.fin 0) max spec) (F.fin 0) (F.fin 1)
          (logarithmic_zero_cutoff min max) (F.fin 1)
  else
    remap_clampF value min max (F.fin 0) (F.fin 1)
termination_by rank min max
decreasing_by
  all_goals
    cases min <;> cases max <;>
      simp_all [rank, rankBase, F.Lt, F.Le, F.Beq, F.IsNan, F.neg] <;>
      split_ifs <;>
      first
        | omega
        | linarith
        | (rcases lt_or_gt_of_ne h2 with hq | hq <;> linarith)

/-- `SliderClamping` from slider.rs. -/
inductive SliderClamping where
  | never
  | edits
  | always
deriving DecidableEq

/-- Modelled from the spec: `clamp_value_to_range` from
`crates/egui/src/widgets/drag_value.rs` (not excerpted): clamp the candidate
into the closed range, after un-inverting a descending range. -/
def clamp_value_to_range (x lo hi : ℚ) : ℚ :=
  if lo ≤ hi then max lo (min hi x) else max hi (min lo x)

/-- Rust `f64::round`: round half away from zero. -/
def roundHalfAway (q : ℚ) : ℤ :=
  if 0 ≤ q then ⌊q + 1 / 2⌋ else ⌈q - 1 / 2⌉

/-- Modelled from the spec: `emath::round_to_decimals` (crate `emath`, not
excerpted): round the value to the given number of decimal places. -/
def round_to_decimals (v : ℚ) (decimals : ℕ) : ℚ :=
  (roundHalfAway (v * 10 ^ decimals) : ℚ) / 10 ^ decimals

/-- `Slider::set_value` from slider.rs, as the function from the candidate
value to the value written through the accessor.  The slider range is
`rstart..=rend` (possibly descending). -/
def set_value (clamping : SliderClamping) (rstart rend : ℚ) (step : Option ℚ)
    (max_decimals : Option ℕ) (value : ℚ) : ℚ :=
  let v1 := if clamping ≠ SliderClamping.never then clamp_value_to_range value rstart rend
    else value
  let v2 := match step with
    | some s => rstart + (roundHalfAway ((v1 - rstart) / s) : ℚ) * s
    | none => v1
  match max_decimals with
    | some d => round_to_decimals v2 d
    | none => v2

/-- The clamp stage of the pipeline, in isolation. -/
def clampStage (clamping : SliderClamping) (rstart rend v : ℚ) : ℚ :=
  if clamping ≠ SliderClamping.never then clamp_value_to_range v rstart rend else v

/-- The step-quantization stage of the pipeline, in isolation. -/
def quantStage (rstart : ℚ) (step : Option ℚ) (v : ℚ) : ℚ :=
  match step with
  | some s => rstart + (roundHalfAway ((v - rstart) / s) : ℚ) * s
  | none => v

/-- The decimal-rounding stage of the pipeline, in isolation. -/
def decimalStage (max_decimals : Option ℕ) (v : ℚ) : ℚ :=
  match max_decimals with
  | some d => round_to_decimals v d
  | none => v

/-- The magnitude function as the spec words it: `INF_RANGE_MAGNITUDE` for an
infinite bound, `|log10(|x|)|` otherwise. -/
noncomputable def specMagnitude (x : F) : ℝ :=
  if x = F.pinf ∨ x = F.ninf then INF_RANGE_MAGNITUDE else abs (Real.logb 10 (abs x.toReal))

/-- A logarithmic spec with the default `smallest_positive = 1e-6` and
`largest_finite = ∞`. -/
noncomputable def logSpecDefault : SliderSpec :=
  ⟨true, F.fin (1 / 1000000), F.pinf⟩

/-- A linear spec with the default fields. -/
noncomputable def linSpecDefault : SliderSpec :=
  ⟨false, F.fin (1 / 1000000), F.pinf⟩

/-! ### Basic facts about the order and arithmetic on `F` -/

theorem F.lt_not_nan {a b : F} (h : F.Lt a b) : ¬a.IsNan ∧ ¬b.IsNan := by
  cases a <;> cases b <;> simp_all [F.Lt, F.IsNan]

theorem F.le_not_nan {a b : F} (h : F.Le a b) : ¬a.IsNan ∧ ¬b.IsNan := by
  cases a <;> cases b <;> simp_all [F.Le, F.IsNan]

theorem F.le_refl {a : F} (h : ¬a.IsNan) : F.Le a a := by
  cases a <;> simp_all [F.Le, F.IsNan]

theorem F.le_of_lt {a b : F} (h : F.Lt a b) : F.Le a b := by
  cases a <;> cases b <;> simp_all [F.Lt, F.Le] <;> linarith

theorem F.le_trans {a b c : F} (hab : F.Le a b) (hbc : F.Le b c) : F.Le a c := by
  cases a <;> cases b <;> cases c <;> simp_all [F.Le] <;> linarith

theorem F.lt_asymm {a b : F} (h : F.Lt a b) : ¬F.Lt b a := by
  cases a <;> cases b <;> simp_all [F.Lt] <;> linarith

theorem F.lt_irrefl (a : F) : ¬F.Lt a a := by
  cases a <;> simp [F.Lt]

theorem F.lt_not_le {a b : F} (h : F.Lt a b) : ¬F.Le b a := by
  cases a <;> cases b <;> simp_all [F.Lt, F.Le] <;> linarith

theorem F.not_beq_of_lt {a b : F} (h : F.Lt a b) : ¬F.Beq a b := by
  rintro ⟨rfl, -⟩; exact F.lt_irrefl a h

theorem F.not_beq_of_lt' {a b : F} (h : F.Lt a b) : ¬F.Beq b a := by
  rintro ⟨rfl, -⟩; exact F.lt_irrefl b h

theorem F.lt_of_ordered {a b : F} (h1 : ¬a.IsNan) (h2 : ¬b.IsNan) (h3 : ¬F.Beq a b)
    (h4 : ¬F.Lt b a) : F.Lt a b := by
  rcases a with x | - | - | - <;> rcases b with y | - | - | - <;>
    simp_all [F.Lt, F.Beq, F.IsNan]
  exact lt_of_le_of_ne h4 h3

theorem F.neg_neg (a : F) : a.neg.neg = a := by
  cases a <;> simp [F.neg]

theorem F.lt_neg_iff {a b : F} : F.Lt a.neg b.neg ↔ F.Lt b a := by
  cases a <;> cases b <;> simp [F.neg, F.Lt]

theorem F.le_neg_iff {a b : F} : F.Le a.neg b.neg ↔ F.Le b a := by
  cases a <;> cases b <;> simp [F.neg, F.Le]

theorem F.isNan_neg {a : F} : a.neg.IsNan ↔ a.IsNan := by
  cases a <;> simp [F.neg, F.IsNan]

theorem F.fmin_of_lt {a b : F} (h : F.Lt a b) : F.fmin a b = a := by
  rw [F.fmin, if_neg (F.lt_asymm h)]

theorem F.fmax_of_lt {a b : F} (h : F.Lt a b) : F.fmax a b = b := by
  rw [F.fmax, if_neg (F.lt_asymm h)]

theorem F.fmin_comm {a b : F} (ha : ¬a.IsNan) (hb : ¬b.IsNan) : F.fmin a b = F.fmin b a := by
  rcases a with x | - | - | - <;> rcases b with y | - | - | - <;>
    simp_all [F.fmin, F.Lt, F.IsNan] <;> split_ifs <;>
    first | rfl | linarith | (congr 1; linarith)

theorem F.fmax_comm {a b : F} (ha : ¬a.IsNan) (hb : ¬b.IsNan) : F.fmax a b = F.fmax b a := by
  rcases a with x | - | - | - <;> rcases b with y | - | - | - <;>
    simp_all [F.fmax, F.Lt, F.IsNan] <;> split_ifs <;>
    first | rfl | linarith | (congr 1; linarith)

/-! ### Evaluation lemmas for the arithmetic on `F` -/

@[simp] theorem F.add_fin (a b : ℝ) : F.add (F.fin a) (F.fin b) = F.fin (a + b) := rfl

@[simp] theorem F.mul_fin (a b : ℝ) : F.mul (F.fin a) (F.fin b) = F.fin (a * b) := rfl

@[simp] theorem F.neg_fin (a : ℝ) : (F.fin a).neg = F.fin (-a) := rfl

@[simp] theorem F.sub_fin (a b : ℝ) : F.sub (F.fin a) (F.fin b) = F.fin (a - b) := by
  simp [F.sub, F.add, F.neg, sub_eq_add_neg]

@[simp] theorem F.add_nan (a : F) : F.add a F.nan = F.nan := by cases a <;> rfl

@[simp] theorem F.nan_add (a : F) : F.add F.nan a = F.nan := by cases a <;> rfl

@[simp] theorem F.mul_nan (a : F) : F.mul a F.nan = F.nan := by cases a <;> rfl

@[simp] theorem F.nan_mul (a : F) : F.mul F.nan a = F.nan := by cases a <;> rfl

@[simp] theorem F.div_nan (a : F) : F.div a F.nan = F.nan := by cases a <;> rfl

@[simp] theorem F.nan_div (a : F) : F.div F.nan a = F.nan := by cases a <;> rfl

@[simp] theorem F.neg_nan : F.nan.neg = F.nan := rfl

@[simp] theorem F.sub_nan (a : F) : F.sub a F.nan = F.nan := by cases a <;> rfl

@[simp] theorem F.nan_sub (a : F) : F.sub F.nan a = F.nan := by cases a <;> rfl

theorem F.div_fin {a b : ℝ} (hb : b ≠ 0) : F.div (F.fin a) (F.fin b) = F.fin (a / b) := by
  simp [F.div, F.divR, hb]

theorem lerpF_fin (p q t : ℝ) :
    lerpF (F.fin p) (F.fin q) (F.fin t) = F.fin ((1 - t) * p + t * q) := by
  simp [lerpF]

theorem lerpF_nan (a b : F) : lerpF a b F.nan = F.nan := by
  cases a <;> cases b <;> simp [lerpF]

/-- `remap` from `0..=c` onto `0..=1` at a finite point, for `c ≠ 0`. -/
theorem remapF_zero_c (t c : ℝ) (hc : c ≠ 0) :
    remapF (F.fin t) (F.fin 0) (F.fin c) (F.fin 0) (F.fin 1) = F.fin (t / c) := by
  simp [remapF, F.div_fin hc, lerpF_fin, div_eq_mul_inv]

/-- `remap` from `c..=1` onto `0..=1` at a finite point, for `c ≠ 1`. -/
theorem remapF_c_one (t c : ℝ) (hc : (1 : ℝ) - c ≠ 0) :
    remapF (F.fin t) (F.fin c) (F.fin 1) (F.fin 0) (F.fin 1) = F.fin ((t - c) / (1 - c)) := by
  simp [remapF, F.div_fin hc, lerpF_fin]

/-! ### Values of `log10` at the concrete points used below -/

theorem logb_ten_ten : Real.logb 10 10 = 1 := Real.logb_self_eq_one (by norm_num)

theorem logb_ten_hundred : Real.logb 10 100 = 2 := by
  rw [show (100 : ℝ) = 10 ^ (2 : ℕ) by norm_num, Real.logb_pow, logb_ten_ten]
  norm_num

theorem logb_ten_millionth : Real.logb 10 ((1 : ℝ) / 1000000) = -6 := by
  rw [show ((1 : ℝ) / 1000000) = ((1000000 : ℝ))⁻¹ by norm_num, Real.logb_inv,
    show (1000000 : ℝ) = 10 ^ (6 : ℕ) by norm_num, Real.logb_pow, logb_ten_ten]
  norm_num

/-! ### The boundary behavior of the two mappers on an ascending range -/

/-- With an ascending range, a normalized position at or below 0 yields `min`. -/
theorem vfn_of_le_zero {min max n : F} (spec : SliderSpec) (h : F.Lt min max)
    (hn : F.Le n (F.fin 0)) : value_from_normalized n min max spec = min := by
  obtain ⟨hm, hM⟩ := F.lt_not_nan h
  rw [value_from_normalized, dif_neg (by tauto), dif_neg (F.not_beq_of_lt h),
    dif_neg (F.lt_asymm h), dif_pos hn]

/-- With an ascending range, a normalized position at or above 1 yields `max`. -/
theorem vfn_of_one_le {min max n : F} (spec : SliderSpec) (h : F.Lt min max)
    (hn : F.Le (F.fin 1) n) : value_from_normalized n min max spec = max := by
  obtain ⟨hm, hM⟩ := F.lt_not_nan h
  have hn0 : ¬F.Le n (F.fin 0) := by
    intro hc
    have h10 := F.le_trans hn hc
    simp [F.Le] at h10
    linarith
  rw [value_from_normalized, dif_neg (by tauto), dif_neg (F.not_beq_of_lt h),
    dif_neg (F.lt_asymm h), dif_neg hn0, dif_pos hn]

/-- With an ascending range, a value at or below `min` yields normalized 0. -/
theorem nfv_of_le_min {min max v : F} (spec : SliderSpec) (h : F.Lt min max)
    (hv : F.Le v min) : normalized_from_value v min max spec = F.fin 0 := by
  obtain ⟨hm, hM⟩ := F.lt_not_nan h
  rw [normalized_from_value, dif_neg (by tauto), dif_neg (F.not_beq_of_lt h),
    dif_neg (F.lt_asymm h), dif_pos hv]

/-- With an ascending range, a value at or above `max` yields normalized 1. -/
theorem nfv_of_max_le {min max v : F} (spec : SliderSpec) (h : F.Lt min max)
    (hv : F.Le max v) : normalized_from_value v min max spec = F.fin 1 := by
  obtain ⟨hm, hM⟩ := F.lt_not_nan h
  have hvm : ¬F.Le v min := fun hc => F.lt_not_le h (F.le_trans hv hc)
  rw [normalized_from_value, dif_neg (by tauto), dif_neg (F.not_beq_of_lt h),
    dif_neg (F.lt_asymm h), dif_neg hvm, dif_pos hv]

/-! ### Claim theorems -/

/-- C7: for every degenerate range (`min == max` in the IEEE sense, so the
bounds are equal and not NaN) and every spec, `value_from_normalized` returns
`min` for every normalized input and `normalized_from_value` returns 0.5 for
every value input. -/
theorem C7_degenerate_range (min max n v : F) (spec : SliderSpec)
    (hmm : F.Beq min max) :
    value_from_normalized n min max spec = min ∧
    normalized_from_value v min max spec = F.fin (1 / 2) := by
  have h1 : ¬(min.IsNan ∨ max.IsNan) := by
    rcases hmm with ⟨rfl, hn⟩
    cases min <;> simp_all [F.IsNan]
  constructor
  · rw [value_from_normalized, dif_neg h1, dif_pos hmm]
  · rw [normalized_from_value, dif_neg h1, dif_pos hmm]

/-- Witness for C7 at the degenerate range [5, 5]. -/
theorem C7_degenerate_range_witness :
    F.Beq (F.fin 5) (F.fin 5) ∧
    (value_from_normalized (F.fin (3 / 10)) (F.fin 5) (F.fin 5) linSpecDefault = F.fin 5 ∧
      normalized_from_value (F.fin 3) (F.fin 5) (F.fin 5) linSpecDefault = F.fin (1 / 2)) :=
  ⟨⟨rfl, by simp⟩, C7_degenerate_range _ _ _ _ _ ⟨rfl, by simp⟩⟩

/-- C8: for `min < max`, every spec, every normalized `n` and every value `v`,
the mappers on the inverted range `[max, min]` are the mirror of the mappers on
`[min, max]`: `value_from_normalized (n, max..=min) =
value_from_normalized (1 - n, min..=max)` and
`normalized_from_value (v, max..=min) = 1 - normalized_from_value (v, min..=max)`. -/
theorem C8_inversion_symmetry (min max n v : F) (spec : SliderSpec)
    (h : F.Lt min max) :
    value_from_normalized n max min spec
      = value_from_normalized (F.sub (F.fin 1) n) min max spec ∧
    normalized_from_value v max min spec
      = F.sub (F.fin 1) (normalized_from_value v min max spec) := by
  obtain ⟨hm, hM⟩ := F.lt_not_nan h
  constructor
  · rw [value_from_normalized, dif_neg (by tauto), dif_neg (F.not_beq_of_lt' h), dif_pos h]
  · rw [normalized_from_value, dif_neg (by tauto), dif_neg (F.not_beq_of_lt' h), dif_pos h]

/-- Witness for C8 on the inverted range [1, 0]. -/
theorem C8_inversion_symmetry_witness :
    F.Lt (F.fin 0) (F.fin 1) ∧
    (value_from_normalized (F.fin (1 / 4)) (F.fin 1) (F.fin 0) linSpecDefault
        = value_from_normalized (F.sub (F.fin 1) (F.fin (1 / 4))) (F.fin 0) (F.fin 1)
            linSpecDefault ∧
      normalized_from_value (F.fin (1 / 3)) (F.fin 1) (F.fin 0) linSpecDefault
        = F.sub (F.fin 1)
            (normalized_from_value (F.fin (1 / 3)) (F.fin 0) (F.fin 1) linSpecDefault)) :=
  ⟨by norm_num [F.Lt],
    C8_inversion_symmetry _ _ _ _ _ (by norm_num [F.Lt])⟩

/-- C6 (amended): for every range with `min < max` (ordered bounds, hence not
NaN) and every spec, `value_from_normalized` returns `min` at `normalized <= 0`
and `max` at `normalized >= 1`, and symmetrically `normalized_from_value`
returns 0 at `value <= min` and 1 at `value >= max`. -/
theorem C6_boundary_clamp (min max n0 n1 v0 v1 : F) (spec : SliderSpec)
    (h : F.Lt min max) (hn0 : F.Le n0 (F.fin 0)) (hn1 : F.Le (F.fin 1) n1)
    (hv0 : F.Le v0 min) (hv1 : F.Le max v1) :
    value_from_normalized n0 min max spec = min ∧
    value_from_normalized n1 min max spec = max ∧
    normalized_from_value v0 min max spec = F.fin 0 ∧
    normalized_from_value v1 min max spec = F.fin 1 :=
  ⟨vfn_of_le_zero spec h hn0, vfn_of_one_le spec h hn1,
    nfv_of_le_min spec h hv0, nfv_of_max_le spec h hv1⟩

/-- Counterexample for C6 as frozen: on the degenerate range [5, 5] the value 3
lies at or below `min`, yet `normalized_from_value` returns 0.5, not 0. -/
theorem C6_boundary_clamp_cex :
    F.Le (F.fin 3) (F.fin 5) ∧
    normalized_from_value (F.fin 3) (F.fin 5) (F.fin 5) linSpecDefault = F.fin (1 / 2) ∧
    F.fin (1 / 2) ≠ F.fin 0 := by
  refine ⟨by norm_num [F.Le], ?_, by simp⟩
  rw [normalized_from_value, dif_neg (by simp [F.IsNan]), dif_pos ⟨rfl, by simp⟩]

/-- Witness for C6 on the range [0, 1] with a linear spec. -/
theorem C6_boundary_clamp_witness :
    (F.Lt (F.fin 0) (F.fin 1) ∧ F.Le (F.fin (-1)) (F.fin 0) ∧ F.Le (F.fin 1) (F.fin 2) ∧
      F.Le (F.fin (-3)) (F.fin 0) ∧ F.Le (F.fin 1) (F.fin 7)) ∧
    (value_from_normalized (F.fin (-1)) (F.fin 0) (F.fin 1) linSpecDefault = F.fin 0 ∧
      value_from_normalized (F.fin 2) (F.fin 0) (F.fin 1) linSpecDefault = F.fin 1 ∧
      normalized_from_value (F.fin (-3)) (F.fin 0) (F.fin 1) linSpecDefault = F.fin 0 ∧
      normalized_from_value (F.fin 7) (F.fin 0) (F.fin 1) linSpecDefault = F.fin 1) :=
  ⟨⟨by norm_num [F.Lt], by norm_num [F.Le], by norm_num [F.Le], by norm_num [F.Le],
      by norm_num [F.Le]⟩,
    C6_boundary_clamp _ _ _ _ _ _ _ (by norm_num [F.Lt]) (by norm_num [F.Le])
      (by norm_num [F.Le]) (by norm_num [F.Le]) (by norm_num [F.Le])⟩

/-- C9: the claim says the cutoff always lands in [0, 1]; in fact, at the range
[-1, 1] both magnitudes are `|log10 1| = 0`, the code computes `0/0 = NaN`, and
the in-range debug assertion fails: the code contradicts its own assertion. -/
theorem C9_cutoff_assert_fires :
    logarithmic_zero_cutoff (F.fin (-1)) (F.fin 1) = F.nan ∧
    ¬(F.Le (F.fin 0) (logarithmic_zero_cutoff (F.fin (-1)) (F.fin 1)) ∧
      F.Le (logarithmic_zero_cutoff (F.fin (-1)) (F.fin 1)) (F.fin 1)) := by
  have h : logarithmic_zero_cutoff (F.fin (-1)) (F.fin 1) = F.nan := by
    simp only [logarithmic_zero_cutoff]
    simp [F.abs, F.toReal, F.divR, Real.logb_one]
  refine ⟨h, ?_⟩
  rw [h]
  simp [F.Le]

/-- C2 (amended): for every logarithmic range with `min < 0 < max` whose two
magnitudes do not both vanish, the zero cutoff is the finite value
`magnitude(min) / (magnitude(min) + magnitude(max))`; in particular for
`min = -10`, `max = 100` the cutoff is 1/3, and `value_from_normalized`
evaluated exactly at the cutoff returns 0. -/
theorem C2_zero_cutoff (min max : F)
    (hmin : F.Lt min (F.fin 0)) (hmax : F.Lt (F.fin 0) max)
    (hsum : specMagnitude min + specMagnitude max ≠ 0) :
    logarithmic_zero_cutoff min max
      = F.fin (specMagnitude min / (specMagnitude min + specMagnitude max)) ∧
    logarithmic_zero_cutoff (F.fin (-10)) (F.fin 100) = F.fin (1 / 3) ∧
    value_from_normalized (F.fin (1 / 3)) (F.fin (-10)) (F.fin 100) logSpecDefault
      = F.fin 0 := by
  have hm1 : (if min = F.ninf then INF_RANGE_MAGNITUDE
      else |Real.logb 10 min.abs.toReal|) = specMagnitude min := by
    rcases min with a | - | - | - <;> simp_all [specMagnitude, F.abs, F.toReal, F.Lt]
  have hm2 : (if max = F.pinf then INF_RANGE_MAGNITUDE
      else |Real.logb 10 max.toReal|) = specMagnitude max := by
    rcases max with b | - | - | - <;> simp_all [specMagnitude, F.abs, F.toReal, F.Lt]
  have hgen : logarithmic_zero_cutoff min max
      = F.fin (specMagnitude min / (specMagnitude min + specMagnitude max)) := by
    simp only [logarithmic_zero_cutoff]
    rw [hm1, hm2]
    simp only [F.divR]
    rw [if_neg hsum]
  have hcut : logarithmic_zero_cutoff (F.fin (-10)) (F.fin 100) = F.fin (1 / 3) := by
    simp only [logarithmic_zero_cutoff]
    rw [if_neg (by simp), if_neg (by simp)]
    rw [show (F.fin (-10)).abs.toReal = (10 : ℝ) by simp [F.abs, F.toReal],
      show (F.fin 100).toReal = (100 : ℝ) from rfl, logb_ten_ten, logb_ten_hundred]
    simp only [F.divR]
    norm_num
  refine ⟨hgen, hcut, ?_⟩
  rw [value_from_normalized, dif_neg (by simp [F.IsNan]),
    dif_neg (by rintro ⟨hb, -⟩; rw [F.fin.injEq] at hb; norm_num at hb),
    dif_neg (by norm_num [F.Lt]), dif_neg (by norm_num [F.Le]),
    dif_neg (by norm_num [F.Le]), dif_pos (by rfl : logSpecDefault.logarithmic = true),
    dif_neg (by norm_num [F.Le]), dif_neg (by norm_num [F.Le]),
    dif_neg (by rw [hcut]; exact F.lt_irrefl _)]
  rw [hcut, remapF_c_one _ _ (by norm_num)]
  norm_num
  exact vfn_of_le_zero _ (by norm_num [F.Lt]) (by norm_num [F.Le])

/-- Counterexample for C2 as frozen: at `min = -1`, `max = 1` both magnitudes
are `|log10 1| = 0` and the code computes `0/0 = NaN`, which differs from the
value of the claimed real-number formula. -/
theorem C2_zero_cutoff_cex :
    logarithmic_zero_cutoff (F.fin (-1)) (F.fin 1)
      ≠ F.fin (specMagnitude (F.fin (-1))
          / (specMagnitude (F.fin (-1)) + specMagnitude (F.fin 1))) := by
  have h : logarithmic_zero_cutoff (F.fin (-1)) (F.fin 1) = F.nan := by
    simp only [logarithmic_zero_cutoff]
    simp [F.abs, F.toReal, F.divR, Real.logb_one]
  rw [h]
  simp

/-- Witness for C2 at the range [-100, 10]. -/
theorem C2_zero_cutoff_witness :
    (F.Lt (F.fin (-100)) (F.fin 0) ∧ F.Lt (F.fin 0) (F.fin 10) ∧
      specMagnitude (F.fin (-100)) + specMagnitude (F.fin 10) ≠ 0) ∧
    logarithmic_zero_cutoff (F.fin (-100)) (F.fin 10)
      = F.fin (specMagnitude (F.fin (-100))
          / (specMagnitude (F.fin (-100)) + specMagnitude (F.fin 10))) := by
  have hsum : specMagnitude (F.fin (-100)) + specMagnitude (F.fin 10) ≠ 0 := by
    simp only [specMagnitude, F.toReal]
    rw [if_neg (by simp), if_neg (by simp)]
    rw [show |(-100 : ℝ)| = 100 by norm_num, show |(10 : ℝ)| = 10 by norm_num,
      logb_ten_ten, logb_ten_hundred]
    norm_num
  exact ⟨⟨by norm_num [F.Lt], by norm_num [F.Lt], hsum⟩,
    (C2_zero_cutoff _ _ (by norm_num [F.Lt]) (by norm_num [F.Lt]) hsum).1⟩

/-- C3 (amended): on the logarithmic range `[0, +∞)` with
`smallest_positive = 1e-6`, `value_from_normalized` returns 0 at normalized 0;
at normalized 1 the boundary clamp precedes the logarithmic formula, so the
result is `max = +∞` (not the finite `10 ^ INF_RANGE_MAGNITUDE` of the frozen
claim); strictly inside `(0, 1)` the substituted log interval
`[log10 1e-6, INF_RANGE_MAGNITUDE] = [-6, 10]` applies, giving
`10 ^ (16 t - 6)` (which tends to `10 ^ 10` only as `t` approaches 1). -/
theorem C3_log_range_with_zero (t : ℝ) (h0 : 0 < t) (h1 : t < 1) :
    value_from_normalized (F.fin 0) (F.fin 0) F.pinf logSpecDefault = F.fin 0 ∧
    value_from_normalized (F.fin 1) (F.fin 0) F.pinf logSpecDefault = F.pinf ∧
    value_from_normalized (F.fin t) (F.fin 0) F.pinf logSpecDefault
      = F.fin ((10 : ℝ) ^ (16 * t - 6)) := by
  have hlt : F.Lt (F.fin 0) F.pinf := by simp [F.Lt]
  refine ⟨vfn_of_le_zero _ hlt (by norm_num [F.Le]),
    vfn_of_one_le _ hlt (by norm_num [F.Le]), ?_⟩
  have hml : range_log10 (F.fin 0) F.pinf logSpecDefault = (F.fin (-6), F.fin 10) := by
    norm_num [range_log10, logSpecDefault, F.log10, logb_ten_millionth, INF_RANGE_MAGNITUDE]
  rw [value_from_normalized, dif_neg (by simp [F.IsNan]),
    dif_neg (by rintro ⟨hb, -⟩; exact absurd hb (by simp)),
    dif_neg (by simp [F.Lt]), dif_neg (by simp [F.Le]; linarith),
    dif_neg (by simp [F.Le]; linarith), dif_pos (by rfl : logSpecDefault.logarithmic = true),
    dif_neg (by simp [F.Le]), dif_pos (by norm_num [F.Le])]
  rw [hml]
  rw [show ((F.fin (-6), F.fin 10) : F × F).1 = F.fin (-6) from rfl,
    show ((F.fin (-6), F.fin 10) : F × F).2 = F.fin 10 from rfl, lerpF_fin]
  simp only [F.pow10]
  rw [show (1 - t) * (-6) + t * 10 = 16 * t - 6 by ring]

/-- Counterexample for C3 as frozen: at normalized 1.0 the mapper returns
`+∞`, which is not finite and differs from `10 ^ INF_RANGE_MAGNITUDE`. -/
theorem C3_log_range_with_zero_cex :
    value_from_normalized (F.fin 1) (F.fin 0) F.pinf logSpecDefault = F.pinf ∧
    ¬(value_from_normalized (F.fin 1) (F.fin 0) F.pinf logSpecDefault).IsFinite ∧
    value_from_normalized (F.fin 1) (F.fin 0) F.pinf logSpecDefault
      ≠ F.fin ((10 : ℝ) ^ INF_RANGE_MAGNITUDE) := by
  have h : value_from_normalized (F.fin 1) (F.fin 0) F.pinf logSpecDefault = F.pinf :=
    vfn_of_one_le _ (by simp [F.Lt]) (by norm_num [F.Le])
  refine ⟨h, ?_, ?_⟩
  · rw [h]; simp [F.IsFinite]
  · rw [h]; simp

/-- Witness for C3 at normalized one half. -/
theorem C3_log_range_with_zero_witness :
    ((0 : ℝ) < 1 / 2 ∧ (1 : ℝ) / 2 < 1) ∧
    value_from_normalized (F.fin (1 / 2)) (F.fin 0) F.pinf logSpecDefault
      = F.fin ((10 : ℝ) ^ (16 * (1 / 2 : ℝ) - 6)) :=
  ⟨⟨by norm_num, by norm_num⟩,
    (C3_log_range_with_zero (1 / 2) (by norm_num) (by norm_num)).2.2⟩

/-- C1: for a linear spec and a finite ascending range, the two mappers are
mutual inverses on [0, 1]: mapping normalized `t` to a value and back returns
exactly `t` (the real-number idealisation of "up to floating-point rounding"). -/
theorem C1_linear_round_trip (a b t : ℝ) (spec : SliderSpec)
    (hlog : spec.logarithmic = false) (hab : a < b) (h0 : 0 ≤ t) (h1 : t ≤ 1) :
    normalized_from_value
      (value_from_normalized (F.fin t) (F.fin a) (F.fin b) spec) (F.fin a) (F.fin b) spec
      = F.fin t := by
  have hlt : F.Lt (F.fin a) (F.fin b) := by simpa [F.Lt] using hab
  rcases eq_or_lt_of_le h0 with h0e | h0s
  · rw [← h0e]
    rw [vfn_of_le_zero spec hlt (by norm_num [F.Le])]
    exact nfv_of_le_min spec hlt (by simp [F.Le])
  rcases eq_or_lt_of_le h1 with h1e | h1s
  · rw [h1e]
    rw [vfn_of_one_le spec hlt (by norm_num [F.Le])]
    exact nfv_of_max_le spec hlt (by simp [F.Le])
  have hba : b - a ≠ 0 := by linarith
  have hvfn : value_from_normalized (F.fin t) (F.fin a) (F.fin b) spec
      = F.fin ((1 - t) * a + t * b) := by
    rw [value_from_normalized, dif_neg (by simp [F.IsNan]), dif_neg (F.not_beq_of_lt hlt),
      dif_neg (F.lt_asymm hlt), dif_neg (by simp [F.Le]; linarith),
      dif_neg (by simp [F.Le]; linarith), dif_neg (by simp [hlog])]
    rw [show (F.fin t).clamp01 = F.fin t by
      simp [F.clamp01, min_eq_right (le_of_lt h1s), max_eq_right h0]]
    exact lerpF_fin a b t
  rw [hvfn]
  have hau : a < (1 - t) * a + t * b := by nlinarith
  have hub : (1 - t) * a + t * b < b := by nlinarith
  rw [normalized_from_value, dif_neg (by simp [F.IsNan]), dif_neg (F.not_beq_of_lt hlt),
    dif_neg (F.lt_asymm hlt), dif_neg (by simp [F.Le]; linarith),
    dif_neg (by simp [F.Le]; linarith), dif_neg (by simp [hlog])]
  unfold remap_clampF
  rw [if_neg (by simp [F.Le]; linarith), if_neg (by simp [F.Le]; linarith)]
  rw [F.sub_fin, F.sub_fin, F.div_fin hba, lerpF_fin]
  congr 1
  field_simp
  ring

/-- Witness for C1 on the range [0, 100] at normalized one half. -/
theorem C1_linear_round_trip_witness :
    (linSpecDefault.logarithmic = false ∧ (0 : ℝ) < 100 ∧ (0 : ℝ) ≤ 1 / 2 ∧
      (1 / 2 : ℝ) ≤ 1) ∧
    normalized_from_value
      (value_from_normalized (F.fin (1 / 2)) (F.fin 0) (F.fin 100) linSpecDefault)
      (F.fin 0) (F.fin 100) linSpecDefault = F.fin (1 / 2) :=
  ⟨⟨rfl, by norm_num, by norm_num, by norm_num⟩,
    C1_linear_round_trip 0 100 (1 / 2) linSpecDefault rfl (by norm_num) (by norm_num)
      (by norm_num)⟩

/-- C4 (amended): under `ClampPolicy::Always`, with no step and no
`max_decimals` configured, every value written by `set_value` lies within the
closed range spanned by the two bounds (after un-inverting a descending
range).  With a step (or decimal rounding) configured the quantization runs
after the clamp and can leave the range, so the frozen claim fails. -/
theorem C4_always_clamped (rstart rend v : ℚ) :
    min rstart rend ≤ set_value SliderClamping.always rstart rend none none v ∧
    set_value SliderClamping.always rstart rend none none v ≤ max rstart rend := by
  have hsv : set_value SliderClamping.always rstart rend none none v
      = clamp_value_to_range v rstart rend := by
    simp [set_value]
  rw [hsv, clamp_value_to_range]
  by_cases hc : rstart ≤ rend
  · rw [if_pos hc, min_eq_left hc, max_eq_right hc]
    exact ⟨le_max_left _ _, max_le hc (min_le_left _ _)⟩
  · rw [if_neg hc, min_eq_right (le_of_not_le hc), max_eq_left (le_of_not_le hc)]
    exact ⟨le_max_left _ _, max_le (le_of_not_le hc) (min_le_left _ _)⟩

/-- Counterexample for C4 as frozen: with range [0, 1], `step = 1.8` and policy
`Always`, the candidate 1 is clamped to 1 but then step-quantized to
`0 + round(1 / 1.8) * 1.8 = 1.8`, which is written and lies outside [0, 1]. -/
theorem C4_always_clamped_cex :
    set_value SliderClamping.always 0 1 (some (9 / 5)) none 1 = 9 / 5 ∧
    ¬(9 / 5 : ℚ) ≤ 1 := by
  constructor
  · norm_num [set_value, clamp_value_to_range, roundHalfAway]
  · norm_num

/-- C5: the pipeline applies its stages in order: clamp (when the policy is
`Always` or `Edits`, i.e. not `Never`), then step quantization
`min + round((v - min)/step) * step`, then decimal rounding, then the write;
with `step = 0.5` and `min = 0`, candidate 0.74 is written as 0.5 and
candidate 0.76 as 1.0. -/
theorem C5_pipeline_order (clamping : SliderClamping) (rstart rend v : ℚ)
    (step : Option ℚ) (max_decimals : Option ℕ) :
    set_value clamping rstart rend step max_decimals v
      = decimalStage max_decimals
          (quantStage rstart step (clampStage clamping rstart rend v)) ∧
    set_value SliderClamping.always 0 100 (some (1 / 2)) none (74 / 100) = 1 / 2 ∧
    set_value SliderClamping.always 0 100 (some (1 / 2)) none (76 / 100) = 1 := by
  refine ⟨rfl, ?_, ?_⟩
  · norm_num [set_value, clamp_value_to_range, roundHalfAway]
  · norm_num [set_value, clamp_value_to_range, roundHalfAway]

/-! ### Infrastructure for the range-invariant of `value_from_normalized` -/

theorem rank_inverted {min max : F} (h3 : F.Lt max min) : rank max min < rank min max := by
  simp only [rank]
  rw [if_pos h3, if_neg (F.lt_asymm h3)]
  omega

theorem rank_nonpos {min max : F} (hlt : F.Lt min max) (h7 : F.Le max (F.fin 0)) :
    rank min.neg max.neg < rank min max := by
  rcases min with x | - | - | - <;> rcases max with y | - | - | - <;>
    simp_all [rank, rankBase, F.Lt, F.Le, F.neg] <;>
    split_ifs <;> first | omega | linarith

theorem rank_str_neg {min max : F} (hmin : F.Lt min (F.fin 0)) (hmax : F.Lt (F.fin 0) max) :
    rank min (F.fin 0) < rank min max := by
  rcases min with x | - | - | - <;> rcases max with y | - | - | - <;>
    simp_all [rank, rankBase, F.Lt, F.Le] <;>
    split_ifs <;> first | omega | linarith

theorem rank_str_pos {min max : F} (hmin : F.Lt min (F.fin 0)) (hmax : F.Lt (F.fin 0) max) :
    rank (F.fin 0) max < rank min max := by
  rcases min with x | - | - | - <;> rcases max with y | - | - | - <;>
    simp_all [rank, rankBase, F.Lt, F.Le] <;>
    split_ifs <;> first | omega | linarith

theorem F.lt_of_not_le {a b : F} (ha : ¬a.IsNan) (hb : ¬b.IsNan) (h : ¬F.Le a b) :
    F.Lt b a := by
  cases a <;> cases b <;> simp_all [F.Le, F.Lt, F.IsNan]

theorem F.sub_one_not_nan {n : F} (h : ¬n.IsNan) : ¬(F.sub (F.fin 1) n).IsNan := by
  cases n <;> simp_all [F.sub, F.add, F.neg, F.IsNan]

theorem F.fmin_self (a : F) : F.fmin a a = a := by
  rw [F.fmin, if_neg (F.lt_irrefl a)]

theorem F.fmax_self (a : F) : F.fmax a a = a := by
  rw [F.fmax, if_neg (F.lt_irrefl a)]

/-- A non-NaN normalized position that fails both boundary guards is a finite
number strictly between 0 and 1. -/
theorem F.interior_normalized {n : F} (hn : ¬n.IsNan) (h0 : ¬F.Le n (F.fin 0))
    (h1 : ¬F.Le (F.fin 1) n) : ∃ t : ℝ, n = F.fin t ∧ 0 < t ∧ t < 1 := by
  rcases n with t | - | - | -
  · exact ⟨t, rfl, by simpa [F.Le] using h0, by simpa [F.Le] using h1⟩
  · simp [F.Le] at h1
  · simp [F.Le] at h0
  · simp [F.IsNan] at hn

theorem F.log10_fin_pos {x : ℝ} (h : 0 < x) :
    (F.fin x).log10 = F.fin (Real.logb 10 x) := by
  simp only [F.log10]
  rw [if_pos h]

theorem range_log10_zero_pinf (spec : SliderSpec) :
    range_log10 (F.fin 0) F.pinf spec
      = (spec.smallest_positive.log10, F.fin INF_RANGE_MAGNITUDE) := by
  simp [range_log10]

theorem range_log10_zero_fin (M : ℝ) (spec : SliderSpec) :
    range_log10 (F.fin 0) (F.fin M) spec
      = if F.Lt spec.smallest_positive (F.fin M)
        then (spec.smallest_positive.log10, (F.fin M).log10)
        else (F.sub ((F.fin M).log10) (F.fin INF_RANGE_MAGNITUDE), (F.fin M).log10) := by
  simp [range_log10]

theorem range_log10_fin_pinf (m : ℝ) (hm : m ≠ 0) (spec : SliderSpec) :
    range_log10 (F.fin m) F.pinf spec
      = if F.Lt (F.fin m) spec.largest_finite
        then ((F.fin m).log10, spec.largest_finite.log10)
        else ((F.fin m).log10, F.add ((F.fin m).log10) (F.fin INF_RANGE_MAGNITUDE)) := by
  simp [range_log10, hm]

theorem range_log10_fin_fin (m M : ℝ) (hm : m ≠ 0) (spec : SliderSpec) :
    range_log10 (F.fin m) (F.fin M) spec = ((F.fin m).log10, (F.fin M).log10) := by
  simp [range_log10, hm]

theorem rpow_lt_of_lt_logb {M u : ℝ} (hM : 0 < M) (h : u < Real.logb 10 M) :
    (10 : ℝ) ^ u < M := by
  have h2 := (Real.rpow_lt_rpow_left_iff (by norm_num : (1 : ℝ) < 10)).mpr h
  rwa [Real.rpow_logb (by norm_num) (by norm_num) hM] at h2

theorem lt_rpow_of_logb_lt {m u : ℝ} (hm : 0 < m) (h : Real.logb 10 m < u) :
    m < (10 : ℝ) ^ u := by
  have h2 := (Real.rpow_lt_rpow_left_iff (by norm_num : (1 : ℝ) < 10)).mpr h
  rwa [Real.rpow_logb (by norm_num) (by norm_num) hm] at h2

theorem lerp_strict_bounds {p q t : ℝ} (hpq : p < q) (h0 : 0 < t) (h1 : t < 1) :
    p < (1 - t) * p + t * q ∧ (1 - t) * p + t * q < q :=
  ⟨by nlinarith, by nlinarith⟩

theorem lerpF_fin_pinf (p t : ℝ) (h0 : 0 < t) :
    lerpF (F.fin p) F.pinf (F.fin t) = F.pinf := by
  simp [lerpF, F.mul, F.add, h0]

theorem lerpF_pinf_fin (q t : ℝ) (h1 : t < 1) :
    lerpF F.pinf (F.fin q) (F.fin t) = F.pinf := by
  have h : (0 : ℝ) < 1 - t := by linarith
  simp [lerpF, F.mul, F.add, h]

theorem cutoff_eq (min max : F) :
    logarithmic_zero_cutoff min max
      = F.divR (if min = F.ninf then INF_RANGE_MAGNITUDE
            else |Real.logb 10 min.abs.toReal|)
          ((if min = F.ninf then INF_RANGE_MAGNITUDE
            else |Real.logb 10 min.abs.toReal|)
            + (if max = F.pinf then INF_RANGE_MAGNITUDE
              else |Real.logb 10 max.toReal|)) := rfl

/-- For a zero-straddling range other than [-1, 1] the zero cutoff is a real
number in [0, 1]. -/
theorem cutoff_fin_of_straddle {min max : F} (hmin : F.Lt min (F.fin 0))
    (hmax : F.Lt (F.fin 0) max)
    (hbad : ¬(min = F.fin (-1) ∧ max = F.fin 1)) :
    ∃ c : ℝ, logarithmic_zero_cutoff min max = F.fin c ∧ 0 ≤ c ∧ c ≤ 1 := by
  have hqm : ¬min.IsNan := (F.lt_not_nan hmin).1
  have hqM : ¬max.IsNan := (F.lt_not_nan hmax).2
  set M1 : ℝ := (if min = F.ninf then INF_RANGE_MAGNITUDE
    else |Real.logb 10 min.abs.toReal|) with hm1
  set M2 : ℝ := (if max = F.pinf then INF_RANGE_MAGNITUDE
    else |Real.logb 10 max.toReal|) with hm2
  have h1 : 0 ≤ M1 := by
    rw [hm1]; split_ifs
    · norm_num [INF_RANGE_MAGNITUDE]
    · positivity
  have h2 : 0 ≤ M2 := by
    rw [hm2]; split_ifs
    · norm_num [INF_RANGE_MAGNITUDE]
    · positivity
  have hsum : M1 + M2 ≠ 0 := by
    intro hz
    have hM1 : M1 = 0 := by linarith
    have hM2 : M2 = 0 := by linarith
    have hminval : min = F.fin (-1) := by
      rcases hminc : min with a | - | - | -
      · rw [hminc] at hmin
        have ha : a < 0 := by simpa [F.Lt] using hmin
        rw [hm1, hminc, if_neg (by simp)] at hM1
        simp only [F.abs, F.toReal] at hM1
        have hl : Real.logb 10 |a| = 0 := abs_eq_zero.mp hM1
        have haa : |a| = 1 := by
          rcases Real.logb_eq_zero.mp hl with h | h | h | h | h | h
          · norm_num at h
          · norm_num at h
          · norm_num at h
          · exact absurd (abs_eq_zero.mp h) (by linarith)
          · exact h
          · exact absurd h (by linarith [abs_nonneg a])
        rcases (abs_eq (by norm_num : (0 : ℝ) ≤ 1)).mp haa with h | h
        · linarith
        · rw [h]
      · rw [hminc] at hmin; simp [F.Lt] at hmin
      · rw [hm1, hminc, if_pos rfl] at hM1; norm_num [INF_RANGE_MAGNITUDE] at hM1
      · rw [hminc] at hqm; simp [F.IsNan] at hqm
    have hmaxval : max = F.fin 1 := by
      rcases hmaxc : max with b | - | - | -
      · rw [hmaxc] at hmax
        have hb : 0 < b := by simpa [F.Lt] using hmax
        rw [hm2, hmaxc, if_neg (by simp)] at hM2
        simp only [F.toReal] at hM2
        have hl : Real.logb 10 b = 0 := abs_eq_zero.mp hM2
        rcases Real.logb_eq_zero.mp hl with h | h | h | h | h | h
        · norm_num at h
        · norm_num at h
        · norm_num at h
        · exact absurd h (by linarith)
        · rw [h]
        · exact absurd h (by linarith)
      · rw [hm2, hmaxc, if_pos rfl] at hM2; norm_num [INF_RANGE_MAGNITUDE] at hM2
      · rw [hmaxc] at hmax; simp [F.Lt] at hmax
      · rw [hmaxc] at hqM; simp [F.IsNan] at hqM
    exact hbad ⟨hminval, hmaxval⟩
  have hsumpos : 0 < M1 + M2 := lt_of_le_of_ne (by linarith) (Ne.symm hsum)
  refine ⟨M1 / (M1 + M2), ?_, div_nonneg h1 (by linarith), ?_⟩
  · rw [cutoff_eq, ← hm1, ← hm2]
    simp only [F.divR]
    rw [if_neg hsum]
  · rw [div_le_one hsumpos]
    linarith

/-- In the non-negative logarithmic branch the interpolated power of ten stays
inside the range. -/
theorem pow10_lerp_mem (spec : SliderSpec) {min max : F} (t : ℝ)
    (hmin : F.Le (F.fin 0) min) (hlt : F.Lt min max)
    (hsp : F.Lt (F.fin 0) spec.smallest_positive)
    (hlf : F.Lt (F.fin 0) spec.largest_finite)
    (h0 : 0 < t) (h1 : t < 1) :
    F.Le min (F.pow10 (lerpF (range_log10 min max spec).1 (range_log10 min max spec).2
      (F.fin t))) ∧
    F.Le (F.pow10 (lerpF (range_log10 min max spec).1 (range_log10 min max spec).2
      (F.fin t))) max := by
  cases min with
  | pinf => exact absurd hlt (by cases max <;> simp [F.Lt])
  | ninf => exact absurd hmin (by simp [F.Le])
  | nan => exact absurd hmin (by simp [F.Le])
  | fin m =>
  have hm0 : 0 ≤ m := by simpa [F.Le] using hmin
  cases max with
  | ninf => exact absurd hlt (by simp [F.Lt])
  | nan => exact absurd hlt (by simp [F.Lt])
  | fin M =>
    have hmM : m < M := by simpa [F.Lt] using hlt
    have hM0 : 0 < M := lt_of_le_of_lt hm0 hmM
    by_cases hm0e : m = 0
    · subst hm0e
      rw [range_log10_zero_fin]
      by_cases hspM : F.Lt spec.smallest_positive (F.fin M)
      · rw [if_pos hspM]
        cases hsps : spec.smallest_positive with
        | fin s =>
          rw [hsps] at hspM hsp
          have hs0 : 0 < s := by simpa [F.Lt] using hsp
          have hsM : s < M := by simpa [F.Lt] using hspM
          rw [F.log10_fin_pos hs0, F.log10_fin_pos hM0, lerpF_fin]
          simp only [F.pow10]
          constructor
          · simp only [F.Le]
            positivity
          · simp only [F.Le]
            refine le_of_lt (rpow_lt_of_lt_logb hM0 ?_)
            have hb := (lerp_strict_bounds
              (Real.logb_lt_logb (show (1 : ℝ) < 10 by norm_num) hs0 hsM) h0 h1).2
            linarith
        | pinf => rw [hsps] at hspM; exact absurd hspM (by simp [F.Lt])
        | ninf => rw [hsps] at hsp; exact absurd hsp (by simp [F.Lt])
        | nan => rw [hsps] at hsp; exact absurd hsp (by simp [F.Lt])
      · rw [if_neg hspM]
        rw [F.log10_fin_pos hM0, F.sub_fin, lerpF_fin]
        simp only [F.pow10]
        constructor
        · simp only [F.Le]
          positivity
        · simp only [F.Le]
          refine le_of_lt (rpow_lt_of_lt_logb hM0 ?_)
          have hlow : Real.logb 10 M - INF_RANGE_MAGNITUDE < Real.logb 10 M := by
            norm_num [INF_RANGE_MAGNITUDE]
          have hb := (lerp_strict_bounds hlow h0 h1).2
          linarith
    · have hm0' : 0 < m := lt_of_le_of_ne hm0 (Ne.symm hm0e)
      rw [range_log10_fin_fin m M hm0e]
      rw [F.log10_fin_pos hm0', F.log10_fin_pos hM0, lerpF_fin]
      simp only [F.pow10]
      have hb := lerp_strict_bounds (Real.logb_lt_logb (show (1 : ℝ) < 10 by norm_num) hm0' hmM) h0 h1
      constructor
      · simp only [F.Le]
        exact le_of_lt (lt_rpow_of_logb_lt hm0' hb.1)
      · simp only [F.Le]
        exact le_of_lt (rpow_lt_of_lt_logb hM0 hb.2)
  | pinf =>
    by_cases hm0e : m = 0
    · subst hm0e
      rw [range_log10_zero_pinf]
      cases hsps : spec.smallest_positive with
      | fin s =>
        have hs0 : 0 < s := by rw [hsps] at hsp; simpa [F.Lt] using hsp
        rw [F.log10_fin_pos hs0, lerpF_fin]
        simp only [F.pow10]
        constructor
        · simp only [F.Le]
          positivity
        · simp [F.Le]
      | pinf =>
        rw [show F.pinf.log10 = F.pinf from rfl, lerpF_pinf_fin _ _ h1]
        exact ⟨by simp [F.pow10, F.Le], by simp [F.pow10, F.Le]⟩
      | ninf => rw [hsps] at hsp; exact absurd hsp (by simp [F.Lt])
      | nan => rw [hsps] at hsp; exact absurd hsp (by simp [F.Lt])
    · have hm0' : 0 < m := lt_of_le_of_ne hm0 (Ne.symm hm0e)
      rw [range_log10_fin_pinf m hm0e]
      by_cases hmlf : F.Lt (F.fin m) spec.largest_finite
      · rw [if_pos hmlf]
        cases hlfs : spec.largest_finite with
        | fin L =>
          have hL0 : 0 < L := by rw [hlfs] at hlf; simpa [F.Lt] using hlf
          have hmL : m < L := by rw [hlfs] at hmlf; simpa [F.Lt] using hmlf
          rw [F.log10_fin_pos hm0', F.log10_fin_pos hL0, lerpF_fin]
          simp only [F.pow10]
          have hb := lerp_strict_bounds
            (Real.logb_lt_logb (show (1 : ℝ) < 10 by norm_num) hm0' hmL) h0 h1
          constructor
          · simp only [F.Le]
            exact le_of_lt (lt_rpow_of_logb_lt hm0' hb.1)
          · simp [F.Le]
        | pinf =>
          rw [F.log10_fin_pos hm0', show F.pinf.log10 = F.pinf from rfl,
            lerpF_fin_pinf _ _ h0]
          exact ⟨by simp [F.pow10, F.Le], by simp [F.pow10, F.Le]⟩
        | ninf => rw [hlfs] at hlf; exact absurd hlf (by simp [F.Lt])
        | nan => rw [hlfs] at hlf; exact absurd hlf (by simp [F.Lt])
      · rw [if_neg hmlf]
        rw [F.log10_fin_pos hm0',
          show F.add (F.fin (Real.logb 10 m)) (F.fin INF_RANGE_MAGNITUDE)
            = F.fin (Real.logb 10 m + INF_RANGE_MAGNITUDE) from rfl, lerpF_fin]
        simp only [F.pow10]
        have hb := lerp_strict_bounds
          (show Real.logb 10 m < Real.logb 10 m + INF_RANGE_MAGNITUDE by
            norm_num [INF_RANGE_MAGNITUDE]) h0 h1
        constructor
        · simp only [F.Le]
          exact le_of_lt (lt_rpow_of_logb_lt hm0' hb.1)
        · simp [F.Le]

/-- The invariant of `value_from_normalized`, proved by strong induction on the
termination measure of the recursion: with non-NaN inputs, positive
`smallest_positive` and `largest_finite`, finite bounds in the linear case,
and excluding the logarithmic range with bounds {-1, 1} (whose zero cutoff
is NaN), the result lies between the two bounds. -/
theorem vfn_range_aux (k : ℕ) : ∀ (n min max : F) (spec : SliderSpec),
    rank min max < k → ¬n.IsNan → ¬min.IsNan → ¬max.IsNan →
    F.Lt (F.fin 0) spec.smallest_positive → F.Lt (F.fin 0) spec.largest_finite →
    (spec.logarithmic = false → min.IsFinite ∧ max.IsFinite) →
    (spec.logarithmic = true →
      ¬((min = F.fin (-1) ∧ max = F.fin 1) ∨ (min = F.fin 1 ∧ max = F.fin (-1)))) →
    F.Le (F.fmin min max) (value_from_normalized n min max spec) ∧
    F.Le (value_from_normalized n min max spec) (F.fmax min max) := by
  induction k with
  | zero =>
    intro n min max spec hk
    omega
  | succ k ih =>
    intro n min max spec hk hn hm hM hsp hlf hlin hbad
    rw [value_from_normalized, dif_neg (by tauto)]
    by_cases h2 : F.Beq min max
    · rw [dif_pos h2]
      obtain ⟨h2e, -⟩ := h2
      subst h2e
      rw [F.fmin_self, F.fmax_self]
      exact ⟨F.le_refl hm, F.le_refl hm⟩
    rw [dif_neg h2]
    by_cases h3 : F.Lt max min
    · rw [dif_pos h3]
      have hk' : rank max min < k := by
        have := rank_inverted h3
        omega
      have hres := ih (F.sub (F.fin 1) n) max min spec hk' (F.sub_one_not_nan hn) hM hm hsp hlf
        (fun hl => ⟨(hlin hl).2, (hlin hl).1⟩)
        (fun hl hor => hbad hl
          (hor.elim (fun hx => Or.inr ⟨hx.2, hx.1⟩) (fun hx => Or.inl ⟨hx.2, hx.1⟩)))
      rw [F.fmin_comm hm hM, F.fmax_comm hm hM]
      exact hres
    rw [dif_neg h3]
    have hlt : F.Lt min max := F.lt_of_ordered hm hM h2 h3
    by_cases h4 : F.Le n (F.fin 0)
    · rw [dif_pos h4, F.fmin_of_lt hlt, F.fmax_of_lt hlt]
      exact ⟨F.le_refl hm, F.le_of_lt hlt⟩
    rw [dif_neg h4]
    by_cases h5 : F.Le (F.fin 1) n
    · rw [dif_pos h5, F.fmin_of_lt hlt, F.fmax_of_lt hlt]
      exact ⟨F.le_of_lt hlt, F.le_refl hM⟩
    rw [dif_neg h5, F.fmin_of_lt hlt, F.fmax_of_lt hlt]
    by_cases h6 : spec.logarithmic
    · rw [dif_pos h6]
      by_cases h7 : F.Le max (F.fin 0)
      · rw [dif_pos h7]
        have hd := rank_nonpos hlt h7
        have hnegbad : spec.logarithmic = true →
            ¬((min.neg = F.fin (-1) ∧ max.neg = F.fin 1) ∨
              (min.neg = F.fin 1 ∧ max.neg = F.fin (-1))) := by
          intro _ hor
          rcases hor with ⟨ha, -⟩ | ⟨-, hb⟩
          · have hmine : min = F.fin 1 := by
              have ha2 := congrArg F.neg ha
              rw [F.neg_neg] at ha2
              simpa [F.neg] using ha2
            rw [hmine] at hlt
            rcases hmaxc : max with y | - | - | -
            · rw [hmaxc] at hlt h7
              have hy1 : (1 : ℝ) < y := by simpa [F.Lt] using hlt
              have hy0 : y ≤ 0 := by simpa [F.Le] using h7
              linarith
            · rw [hmaxc] at h7; simp [F.Le] at h7
            · rw [hmaxc] at hlt; simp [F.Lt] at hlt
            · rw [hmaxc] at h7; simp [F.Le] at h7
          · have hmaxe : max = F.fin 1 := by
              have hb2 := congrArg F.neg hb
              rw [F.neg_neg] at hb2
              simpa [F.neg] using hb2
            rw [hmaxe] at h7
            simp [F.Le] at h7
            linarith
        have hres := ih n min.neg max.neg spec (by omega) hn
          (by simpa [F.isNan_neg] using hm) (by simpa [F.isNan_neg] using hM) hsp hlf
          (fun hc => absurd h6 (by simp [hc])) hnegbad
        have hltn : F.Lt max.neg min.neg := F.lt_neg_iff.mpr hlt
        rw [F.fmin, if_pos hltn, F.fmax, if_pos hltn] at hres
        obtain ⟨hr1, hr2⟩ := hres
        constructor
        · have := F.le_neg_iff.mpr hr2
          rwa [F.neg_neg] at this
        · have := F.le_neg_iff.mpr hr1
          rwa [F.neg_neg] at this
      rw [dif_neg h7]
      by_cases h8 : F.Le (F.fin 0) min
      · rw [dif_pos h8]
        obtain ⟨t, rfl, ht0, ht1⟩ := F.interior_normalized hn h4 h5
        exact pow10_lerp_mem spec t h8 hlt hsp hlf ht0 ht1
      · rw [dif_neg h8]
        have hminlt : F.Lt min (F.fin 0) :=
          F.lt_of_not_le (by simp [F.IsNan]) hm h8
        have hmaxgt : F.Lt (F.fin 0) max :=
          F.lt_of_not_le hM (by simp [F.IsNan]) h7
        have hbad2 : ¬(min = F.fin (-1) ∧ max = F.fin 1) :=
          fun hc => hbad h6 (Or.inl hc)
        obtain ⟨c, hc, hc0, hc1⟩ := cutoff_fin_of_straddle hminlt hmaxgt hbad2
        obtain ⟨t, rfl, ht0, ht1⟩ := F.interior_normalized hn h4 h5
        rw [hc]
        by_cases h9 : F.Lt (F.fin t) (F.fin c)
        · rw [dif_pos h9]
          have htc : t < c := by simpa [F.Lt] using h9
          have hcpos : 0 < c := lt_trans ht0 htc
          rw [remapF_zero_c t c (ne_of_gt hcpos)]
          have hd := rank_str_neg hminlt hmaxgt
          have hres := ih (F.fin (t / c)) min (F.fin 0) spec (by omega)
            (by simp [F.IsNan]) hm (by simp [F.IsNan]) hsp hlf
            (fun hc2 => absurd h6 (by simp [hc2]))
            (fun _ hor => hor.elim
              (fun hx => by have hx2 := hx.2; rw [F.fin.injEq] at hx2; norm_num at hx2)
              (fun hx => by have hx2 := hx.2; rw [F.fin.injEq] at hx2; norm_num at hx2))
          rw [F.fmin_of_lt hminlt, F.fmax_of_lt hminlt] at hres
          obtain ⟨hr1, hr2⟩ := hres
          exact ⟨hr1, F.le_trans hr2 (F.le_of_lt hmaxgt)⟩
        · rw [dif_neg h9]
          have htc : c ≤ t := by
            by_contra hcc
            exact h9 (by simpa [F.Lt] using not_le.mp hcc)
          have hc1s : c < 1 := lt_of_le_of_lt htc ht1
          rw [remapF_c_one t c (by linarith)]
          have hd := rank_str_pos hminlt hmaxgt
          have hres := ih (F.fin ((t - c) / (1 - c))) (F.fin 0) max spec (by omega)
            (by simp [F.IsNan]) (by simp [F.IsNan]) hM hsp hlf
            (fun hc2 => absurd h6 (by simp [hc2]))
            (fun _ hor => hor.elim
              (fun hx => by have hx1 := hx.1; rw [F.fin.injEq] at hx1; norm_num at hx1)
              (fun hx => by have hx1 := hx.1; rw [F.fin.injEq] at hx1; norm_num at hx1))
          rw [F.fmin_of_lt hmaxgt, F.fmax_of_lt hmaxgt] at hres
          obtain ⟨hr1, hr2⟩ := hres
          exact ⟨F.le_trans (F.le_of_lt hminlt) hr1, hr2⟩
    · rw [dif_neg h6]
      have hfin := hlin (by revert h6; cases spec.logarithmic <;> simp)
      obtain ⟨t, rfl, ht0, ht1⟩ := F.interior_normalized hn h4 h5
      obtain ⟨hfa, hfb⟩ := hfin
      cases min with
      | pinf => simp [F.IsFinite] at hfa
      | ninf => simp [F.IsFinite] at hfa
      | nan => simp [F.IsFinite] at hfa
      | fin a =>
      cases max with
      | pinf => simp [F.IsFinite] at hfb
      | ninf => simp [F.IsFinite] at hfb
      | nan => simp [F.IsFinite] at hfb
      | fin b =>
        have hab : a < b := by simpa [F.Lt] using hlt
        rw [show (F.fin t).clamp01 = F.fin t by
          simp [F.clamp01, min_eq_right (le_of_lt ht1), max_eq_right (le_of_lt ht0)],
          lerpF_fin]
        constructor <;> simp only [F.Le] <;> nlinarith

/-- C10 (amended): for every range with non-NaN bounds, every non-NaN
normalized input, positive `smallest_positive` and `largest_finite`, finite
bounds in the linear case, and excluding the logarithmic ranges whose bounds
are exactly {-1, 1} (there the zero cutoff is `0/0 = NaN` and the mapper
returns NaN), `value_from_normalized` returns a value between the smaller and
the larger of the two bounds. -/
theorem C10_result_in_range (n min max : F) (spec : SliderSpec)
    (hn : ¬n.IsNan) (hm : ¬min.IsNan) (hM : ¬max.IsNan)
    (hsp : F.Lt (F.fin 0) spec.smallest_positive)
    (hlf : F.Lt (F.fin 0) spec.largest_finite)
    (hlin : spec.logarithmic = false → min.IsFinite ∧ max.IsFinite)
    (hbad : spec.logarithmic = true →
      ¬((min = F.fin (-1) ∧ max = F.fin 1) ∨ (min = F.fin 1 ∧ max = F.fin (-1)))) :
    F.Le (F.fmin min max) (value_from_normalized n min max spec) ∧
    F.Le (value_from_normalized n min max spec) (F.fmax min max) :=
  vfn_range_aux (rank min max + 1) n min max spec (by omega) hn hm hM hsp hlf hlin hbad

/-- Counterexample for C10 as frozen: on the logarithmic range [-1, 1] the
zero cutoff is `0/0 = NaN`, so the mapper returns NaN at normalized one half,
which does not lie between the bounds. -/
theorem C10_result_in_range_cex :
    value_from_normalized (F.fin (1 / 2)) (F.fin (-1)) (F.fin 1) logSpecDefault = F.nan ∧
    ¬F.Le (F.fmin (F.fin (-1)) (F.fin 1)) F.nan := by
  have hcut : logarithmic_zero_cutoff (F.fin (-1)) (F.fin 1) = F.nan := by
    simp only [logarithmic_zero_cutoff]
    simp [F.abs, F.toReal, F.divR, Real.logb_one]
  have hml : range_log10 (F.fin 0) (F.fin 1) logSpecDefault = (F.fin (-6), F.fin 0) := by
    have hne : (F.fin (1 : ℝ)) ≠ F.pinf := by simp
    norm_num [range_log10, logSpecDefault, F.log10, F.Lt, logb_ten_millionth,
      Real.logb_one, hne]
  have hinner : value_from_normalized F.nan (F.fin 0) (F.fin 1) logSpecDefault = F.nan := by
    rw [value_from_normalized, dif_neg (by simp [F.IsNan]),
      dif_neg (by rintro ⟨hb, -⟩; rw [F.fin.injEq] at hb; norm_num at hb),
      dif_neg (by norm_num [F.Lt]), dif_neg (by simp [F.Le]),
      dif_neg (by simp [F.Le]), dif_pos (by rfl : logSpecDefault.logarithmic = true),
      dif_neg (by norm_num [F.Le]), dif_pos (by norm_num [F.Le]), hml]
    simp [lerpF_nan, F.pow10]
  have hmain : value_from_normalized (F.fin (1 / 2)) (F.fin (-1)) (F.fin 1) logSpecDefault
      = F.nan := by
    rw [value_from_normalized, dif_neg (by simp [F.IsNan]),
      dif_neg (by rintro ⟨hb, -⟩; rw [F.fin.injEq] at hb; norm_num at hb),
      dif_neg (by norm_num [F.Lt]), dif_neg (by norm_num [F.Le]),
      dif_neg (by norm_num [F.Le]), dif_pos (by rfl : logSpecDefault.logarithmic = true),
      dif_neg (by norm_num [F.Le]), dif_neg (by norm_num [F.Le]),
      dif_neg (by rw [hcut]; simp [F.Lt])]
    rw [hcut, show remapF (F.fin (1 / 2)) F.nan (F.fin 1) (F.fin 0) (F.fin 1) = F.nan by
      simp [remapF, lerpF_nan], hinner]
  refine ⟨hmain, ?_⟩
  rw [show F.fmin (F.fin (-1)) (F.fin 1) = F.fin (-1) by
    rw [F.fmin, if_neg (by norm_num [F.Lt])]]
  simp [F.Le]

/-- Witness for C10 on the linear range [0, 100] at normalized one half. -/
theorem C10_result_in_range_witness :
    (¬(F.fin (1 / 2)).IsNan ∧ ¬(F.fin 0).IsNan ∧ ¬(F.fin 100).IsNan ∧
      F.Lt (F.fin 0) linSpecDefault.smallest_positive ∧
      F.Lt (F.fin 0) linSpecDefault.largest_finite) ∧
    (F.Le (F.fmin (F.fin 0) (F.fin 100))
        (value_from_normalized (F.fin (1 / 2)) (F.fin 0) (F.fin 100) linSpecDefault) ∧
      F.Le (value_from_normalized (F.fin (1 / 2)) (F.fin 0) (F.fin 100) linSpecDefault)
        (F.fmax (F.fin 0) (F.fin 100))) :=
  ⟨⟨by simp [F.IsNan], by simp [F.IsNan], by simp [F.IsNan],
      by norm_num [F.Lt, linSpecDefault], by simp [F.Lt, linSpecDefault]⟩,
    C10_result_in_range _ _ _ _ (by simp [F.IsNan]) (by simp [F.IsNan]) (by simp [F.IsNan])
      (by norm_num [F.Lt, linSpecDefault]) (by simp [F.Lt, linSpecDefault])
      (fun _ => ⟨by simp [F.IsFinite], by simp [F.IsFinite]⟩)
      (fun hc => by simp [linSpecDefault] at hc)⟩
